import Mathlib

/-!
Verification of the dynamic schema reconciliation and migration subsystem
(`nba_scraper/dynamic_schema.py` and `nba_scraper/migration_system.py`).

The Python code is shallowly embedded: pure helpers become Lean functions,
and the effectful session/DDL/commit operations are modelled by explicit
environment records carrying, for each effect, whether it raises.  An
escaping Python exception is modelled by `Except.error`.
-/

namespace StatBucket

/-! ## Scalar values of scraped records

A scraped record maps column names to Python scalars.  Only the dynamic
type of a value matters to type inference (`isinstance` checks), plus the
character content of strings. -/

/-- Python scalar values as seen by `SchemaChangeDetector._infer_column_type`:
`bool`, `int`, `float`, `str`, `None`, or any other object. -/
inductive PyValue where
  | pyBool (b : Bool)
  | pyInt (n : Int)
  | pyFloat (q : Int)
  | pyStr (s : String)
  | pyNone
  | pyOther
  deriving DecidableEq

/-! ## Date heuristics (`_looks_like_date`, `_looks_like_datetime`)

Each regular expression of the source is modelled as an explicit shape
check on the string's characters; `\d` is an ASCII digit and the `$`
anchor is end of input.  `re.match` anchors at the start only, so the
datetime patterns (which carry no `$`) are prefix matches. -/

/-- Pattern `^\d{4}-\d{2}-\d{2}$` (YYYY-MM-DD). -/
def matchDateISO (s : String) : Bool :=
  match s.data with
  | [y1, y2, y3, y4, '-', m1, m2, '-', d1, d2] =>
      y1.isDigit && y2.isDigit && y3.isDigit && y4.isDigit &&
      m1.isDigit && m2.isDigit && d1.isDigit && d2.isDigit
  | _ => false

/-- Pattern `^\d{2}/\d{2}/\d{4}$` (MM/DD/YYYY). -/
def matchDateSlash (s : String) : Bool :=
  match s.data with
  | [m1, m2, '/', d1, d2, '/', y1, y2, y3, y4] =>
      m1.isDigit && m2.isDigit && d1.isDigit && d2.isDigit &&
      y1.isDigit && y2.isDigit && y3.isDigit && y4.isDigit
  | _ => false

/-- Pattern `^\d{1,2}/\d{1,2}/\d{4}$` (M/D/YYYY, one- or two-digit month
and day).  The quantifier `\d{1,2}` is deterministic here because the
following literal `/` is not a digit. -/
def matchDateSlashFlex (s : String) : Bool :=
  match s.data with
  | [m1, '/', d1, '/', y1, y2, y3, y4] =>
      m1.isDigit && d1.isDigit && y1.isDigit && y2.isDigit && y3.isDigit && y4.isDigit
  | [m1, m2, '/', d1, '/', y1, y2, y3, y4] =>
      m1.isDigit && m2.isDigit && d1.isDigit &&
      y1.isDigit && y2.isDigit && y3.isDigit && y4.isDigit
  | [m1, '/', d1, d2, '/', y1, y2, y3, y4] =>
      m1.isDigit && d1.isDigit && d2.isDigit &&
      y1.isDigit && y2.isDigit && y3.isDigit && y4.isDigit
  | [m1, m2, '/', d1, d2, '/', y1, y2, y3, y4] =>
      m1.isDigit && m2.isDigit && d1.isDigit && d2.isDigit &&
      y1.isDigit && y2.isDigit && y3.isDigit && y4.isDigit
  | _ => false

/-- Pattern `^\d{4}-\d{2}-\d{2} \d{2}:\d{2}:\d{2}` (prefix match, no `$`). -/
def matchDatetimeSpace (s : String) : Bool :=
  match s.data with
  | y1 :: y2 :: y3 :: y4 :: '-' :: m1 :: m2 :: '-' :: d1 :: d2 :: ' ' ::
    h1 :: h2 :: ':' :: n1 :: n2 :: ':' :: s1 :: s2 :: _ =>
      y1.isDigit && y2.isDigit && y3.isDigit && y4.isDigit &&
      m1.isDigit && m2.isDigit && d1.isDigit && d2.isDigit &&
      h1.isDigit && h2.isDigit && n1.isDigit && n2.isDigit && s1.isDigit && s2.isDigit
  | _ => false

/-- Pattern `^\d{4}-\d{2}-\d{2}T\d{2}:\d{2}:\d{2}` (ISO form, prefix match). -/
def matchDatetimeT (s : String) : Bool :=
  match s.data with
  | y1 :: y2 :: y3 :: y4 :: '-' :: m1 :: m2 :: '-' :: d1 :: d2 :: 'T' ::
    h1 :: h2 :: ':' :: n1 :: n2 :: ':' :: s1 :: s2 :: _ =>
      y1.isDigit && y2.isDigit && y3.isDigit && y4.isDigit &&
      m1.isDigit && m2.isDigit && d1.isDigit && d2.isDigit &&
      h1.isDigit && h2.isDigit && n1.isDigit && n2.isDigit && s1.isDigit && s2.isDigit
  | _ => false

/-- `SchemaChangeDetector._looks_like_date`: any of the three date patterns. -/
def looksLikeDate (s : String) : Bool :=
  matchDateISO s || matchDateSlash s || matchDateSlashFlex s

/-- `SchemaChangeDetector._looks_like_datetime`: either datetime pattern. -/
def looksLikeDatetime (s : String) : Bool :=
  matchDatetimeSpace s || matchDatetimeT s

/-- `SchemaChangeDetector._infer_column_type`: dynamic type dispatch, with
the date/datetime heuristics on strings and `string` as the fallback. -/
def inferColumnType : PyValue → String
  | .pyBool _ => "boolean"
  | .pyInt _ => "integer"
  | .pyFloat _ => "float"
  | .pyStr s =>
      if looksLikeDate s then "date"
      else if looksLikeDatetime s then "datetime"
      else "string"
  | .pyNone => "string"
  | .pyOther => "string"

/-- The `type_hierarchy` dict of `_get_most_permissive_type`; `.get(t, 5)`
defaults unknown type names to rank 5. -/
def typeHierarchy (t : String) : Nat :=
  if t = "boolean" then 0
  else if t = "integer" then 1
  else if t = "float" then 2
  else if t = "date" then 3
  else if t = "datetime" then 4
  else if t = "string" then 5
  else 5

/-- `SchemaChangeDetector._get_most_permissive_type`. -/
def getMostPermissiveType (type1 type2 : String) : String :=
  if typeHierarchy type1 > typeHierarchy type2 then type1 else type2

/-- One update step of the per-column type in `_analyze_data_structure`
(lines setting `col_info` type: first sample fixes the type, a differing
later sample widens it with `_get_most_permissive_type`). -/
def widenType (current : Option String) (inferred : String) : Option String :=
  match current with
  | none => some inferred
  | some c => if c = inferred then some c else some (getMostPermissiveType c inferred)

/-- One sample's contribution in `_analyze_data_structure`: a `None`
sample only marks nullability and is skipped (`continue`); any other
sample's inferred type is folded in with `widenType`. -/
def analyzeUpdate (cur : Option String) (v : PyValue) : Option String :=
  match v with
  | .pyNone => cur
  | _ => widenType cur (inferColumnType v)

/-- The column-type accumulation of `_analyze_data_structure` restricted
to one column: the sampled values in record order, starting from no type. -/
def analyzeColumnType (vals : List PyValue) : Option String :=
  vals.foldl analyzeUpdate none

/-- `SchemaChangeDetector._should_upgrade_column_type`: the `upgrades` dict
literal of the source, read with `.get(existing_upper, [])`, becomes a case
analysis on the uppercased existing type. -/
def shouldUpgradeColumnType (existingType requiredType : String) : Bool :=
  let existingUpper := existingType.toUpper
  let requiredUpper := requiredType.toUpper
  let allowed : List String :=
    if existingUpper = "INTEGER" then ["FLOAT", "TEXT"]
    else if existingUpper = "VARCHAR" then ["TEXT"]
    else if existingUpper = "FLOAT" then ["TEXT"]
    else if existingUpper = "DATE" then ["TIMESTAMP", "TEXT"]
    else if existingUpper = "BOOLEAN" then ["TEXT"]
    else []
  allowed.contains requiredUpper

/-! ## Schema change records and change detection -/

/-- A column definition dict as built by `_analyze_data_structure` and as
returned by `_get_table_columns` (only the fields the claims touch). -/
structure ColInfo where
  type : String
  nullable : Bool := false
  maxLength : Nat := 0
  sqlType : String := ""
  deriving DecidableEq

/-- One change dict produced by `detect_changes_from_scraped_data` and
consumed by `SchemaMigrationManager.apply_schema_changes`. -/
structure SchemaChange where
  operation : String
  tableName : String
  columnName : String
  oldDefinition : Option ColInfo := none
  newDefinition : Option ColInfo := none
  reason : String := ""
  deriving DecidableEq

/-- `SchemaChangeDetector.detect_changes_from_scraped_data`, parameterised
by its two column maps: `existingColumns` is the introspected live schema
(`_get_table_columns`, an external collaborator) and `requiredColumns` the
result of `_analyze_data_structure` on the scraped batch, both as
association lists in dict order.  The first loop emits `add` changes for
required columns absent from the live schema; the second emits `modify`
changes for columns present in both whenever `_should_upgrade_column_type`
approves. -/
def detectChangesFromScrapedData (tableName : String)
    (existingColumns requiredColumns : List (String × ColInfo)) : List SchemaChange :=
  let addChanges := requiredColumns.filterMap fun p =>
    if (existingColumns.lookup p.1).isNone then
      some { operation := "add", tableName := tableName, columnName := p.1,
             newDefinition := some p.2,
             reason := "Found in scraped data but not in existing schema" }
    else none
  let modifyChanges := requiredColumns.filterMap fun p =>
    match existingColumns.lookup p.1 with
    | some existingInfo =>
        if shouldUpgradeColumnType existingInfo.type p.2.type then
          some { operation := "modify", tableName := tableName, columnName := p.1,
                 oldDefinition := some existingInfo, newDefinition := some p.2,
                 reason := "Type upgrade needed" }
        else none
    | none => none
  addChanges ++ modifyChanges

/-! ## SchemaMigrationManager.apply_schema_changes

The session and DDL effects inside `apply_schema_changes` are modelled by
an `ApplyEnv`: `ddlOk` says whether `_add_column`/`_modify_column` returns
normally for a given change (their raised exception is the per-change
`except` path), `archiveFails` whether the body of
`_record_schema_changes` raises (it catches internally, at worst before
adding any row), and `commitFails` whether the final `session.commit()`
raises (caught by the outer `except`, which rolls back and re-raises). -/

/-- The `results` dict of `apply_schema_changes`. -/
structure ApplyResults where
  applied : List SchemaChange := []
  failed : List SchemaChange := []
  skipped : List SchemaChange := []
  deriving DecidableEq

/-- One iteration of the per-change loop of `apply_schema_changes`:
`add`/`modify` run their DDL and land in `applied`, or in `failed` when the
DDL raises; `remove` is logged and skipped; any other operation is logged
and skipped. -/
def classifyStep (ddlOk : SchemaChange → Bool) (res : ApplyResults)
    (change : SchemaChange) : ApplyResults :=
  if change.operation = "add" then
    if ddlOk change then { res with applied := res.applied ++ [change] }
    else { res with failed := res.failed ++ [change] }
  else if change.operation = "modify" then
    if ddlOk change then { res with applied := res.applied ++ [change] }
    else { res with failed := res.failed ++ [change] }
  else if change.operation = "remove" then
    { res with skipped := res.skipped ++ [change] }
  else
    { res with skipped := res.skipped ++ [change] }

/-- The whole per-change loop of `apply_schema_changes`. -/
def classifyChanges (ddlOk : SchemaChange → Bool) (changes : List SchemaChange) :
    ApplyResults :=
  changes.foldl (classifyStep ddlOk) {}

/-- A row of the `SchemaChange` audit table built by
`_record_schema_changes`. -/
structure SchemaChangeRow where
  tableName : String
  columnName : String
  operation : String
  oldDefinition : Option ColInfo := none
  newDefinition : Option ColInfo := none
  migrationApplied : Bool := true
  deriving DecidableEq

/-- The audit row `_record_schema_changes` builds from one applied change. -/
def toSchemaChangeRow (change : SchemaChange) : SchemaChangeRow :=
  { tableName := change.tableName, columnName := change.columnName,
    operation := change.operation, oldDefinition := change.oldDefinition,
    newDefinition := change.newDefinition, migrationApplied := true }

/-- The session's audit-table state: rows added but not yet committed, and
rows made durable by `session.commit()`. -/
structure ApplySession where
  pending : List SchemaChangeRow := []
  committed : List SchemaChangeRow := []
  deriving DecidableEq

/-- `SchemaMigrationManager._record_schema_changes`: adds one audit row per
applied change to the session; its own `except` swallows a raised exception
(logging a warning), leaving the session as it was. -/
def recordSchemaChanges (archiveFails : Bool) (applied : List SchemaChange)
    (s : ApplySession) : ApplySession :=
  if archiveFails then s
  else { s with pending := s.pending ++ applied.map toSchemaChangeRow }

/-- `session.commit()`: pending rows become durable. -/
def sessionCommit (s : ApplySession) : ApplySession :=
  { pending := [], committed := s.committed ++ s.pending }

/-- Effect environment for one `apply_schema_changes` call. -/
structure ApplyEnv where
  ddlOk : SchemaChange → Bool
  archiveFails : Bool := false
  commitFails : Bool := false

/-- `SchemaMigrationManager.apply_schema_changes`.  Per-change exceptions
are caught inside the loop; after the loop the applied changes are
archived and the session committed.  A commit failure reaches the outer
`except`, which rolls the session back, logs, and re-raises — modelled as
`Except.error`. -/
def applySchemaChanges (env : ApplyEnv) (changes : List SchemaChange) :
    Except String (ApplyResults × ApplySession) :=
  let results := classifyChanges env.ddlOk changes
  let s1 := recordSchemaChanges env.archiveFails results.applied {}
  if env.commitFails then .error "Schema migration failed"
  else .ok (results, sessionCommit s1)

/-! ## SchemaFeedbackSystem and DynamicColumnSystem -/

/-- `SchemaFeedbackSystem.handle_schema_changes`: no changes continues;
otherwise the notification callback is fired best-effort and the return
value is `False` exactly when `pause_on_changes` is set. -/
def handleSchemaChanges (pauseOnChanges : Bool) (changes : List SchemaChange) : Bool :=
  if changes.isEmpty then true
  else if pauseOnChanges then false
  else true

/-- The `results` dict of `DynamicColumnSystem.process_scraped_data`. -/
structure ProcessResults where
  changesDetected : Nat
  changes : List SchemaChange
  migrationApplied : Bool
  continueScraping : Bool
  migrationResults : Option ApplyResults := none
  deriving DecidableEq

/-- `DynamicColumnSystem.process_scraped_data`: detect → feedback →
(optionally) migrate.  It installs no exception handler of its own, so an
exception raised by `apply_schema_changes` propagates to the caller. -/
def processScrapedData (env : ApplyEnv) (autoMigrate pauseOnChanges : Bool)
    (tableName : String) (existingColumns requiredColumns : List (String × ColInfo)) :
    Except String ProcessResults :=
  let changes := detectChangesFromScrapedData tableName existingColumns requiredColumns
  let base : ProcessResults :=
    { changesDetected := changes.length, changes := changes,
      migrationApplied := false, continueScraping := true }
  if changes.isEmpty then .ok base
  else
    let contScraping := handleSchemaChanges pauseOnChanges changes
    let base := { base with continueScraping := contScraping }
    if autoMigrate && contScraping then
      match applySchemaChanges env changes with
      | .error e => .error e
      | .ok (migrationResults, _) =>
          .ok { base with
                migrationResults := some migrationResults,
                migrationApplied := !migrationResults.applied.isEmpty,
                continueScraping :=
                  if !migrationResults.failed.isEmpty then false else contScraping }
    else .ok base

/-! ## MigrationExecutor (`migration_system.py`)

Session and I/O effects are again modelled by environments.  A batch's
behaviour is fixed by a `BatchEnv` looked up from its batch number, so
`_process_batch` is a deterministic function of the batch — the thread
pool of `_process_batches_parallel` only changes the order in which batch
results are folded into the run result. -/

/-- `MigrationStatus`; `partialSuccess` models the Python member
`PARTIAL = "partial"`, `rolledBack` models `ROLLED_BACK`. -/
inductive MigrationStatus where
  | pending
  | running
  | completed
  | failed
  | rolledBack
  | partialSuccess
  deriving DecidableEq

/-- `BatchStatus`. -/
inductive BatchStatus where
  | pending
  | processing
  | completed
  | failed
  deriving DecidableEq

/-- One batch-parameter dict yielded by `_generate_batches` (the fields the
claims touch; `batch_id` is the zero-padded rendering of `batchNum`). -/
structure BatchParams where
  batchNum : Nat
  offset : Nat
  limit : Nat
  totalBatches : Nat
  deriving DecidableEq

/-- `MigrationExecutor._generate_batches`: `ceil(total/batchSize)` batches,
batch `i` at offset `i * batchSize` with `LIMIT batchSize`. -/
def generateBatches (batchSize totalRecords : Nat) : List BatchParams :=
  let numBatches := (totalRecords + batchSize - 1) / batchSize
  (List.range numBatches).map fun batchNum =>
    { batchNum := batchNum, offset := batchNum * batchSize,
      limit := batchSize, totalBatches := numBatches }

/-- `BatchResult` (the fields the claims touch). -/
structure BatchResult where
  batchNum : Nat
  status : BatchStatus
  recordsProcessed : Nat := 0
  recordsFailed : Nat := 0
  deriving DecidableEq

/-- Effects of one `_process_batch` call: whether the batch fetch raises,
whether the batch's `session.commit()` raises, and the success/failure
outcome of the transform-and-update step for each fetched row (`true` is a
migrated row, `false` a row whose per-row `except` counted a failure). -/
structure BatchEnv where
  fetchFails : Bool := false
  commitFails : Bool := false
  rowOutcomes : List Bool := []

/-- `MigrationExecutor._process_batch`: a fetch failure rolls the batch
back with zero counters; otherwise rows are processed one at a time, each
failure isolated by the per-row `except`; a commit failure (non-dry runs)
marks the batch `failed` but keeps the counters it accumulated. -/
def processBatch (benv : BatchEnv) (dryRun : Bool) (p : BatchParams) : BatchResult :=
  if benv.fetchFails then
    { batchNum := p.batchNum, status := .failed }
  else
    let processed := benv.rowOutcomes.count true
    let failedRows := benv.rowOutcomes.count false
    if !dryRun && benv.commitFails then
      { batchNum := p.batchNum, status := .failed,
        recordsProcessed := processed, recordsFailed := failedRows }
    else
      { batchNum := p.batchNum, status := .completed,
        recordsProcessed := processed, recordsFailed := failedRows }

/-- `MigrationResult` (the fields the claims touch). -/
structure MigrationResult where
  status : MigrationStatus
  totalRecords : Nat := 0
  recordsProcessed : Nat := 0
  recordsFailed : Nat := 0
  batchesCompleted : Nat := 0
  batchesFailed : Nat := 0
  errorMessage : Option String := none
  batchResults : List BatchResult := []
  deriving DecidableEq

/-- `MigrationResult.add_batch_result`: append the batch result and fold
its counters into the run totals. -/
def addBatchResult (r : MigrationResult) (b : BatchResult) : MigrationResult :=
  { r with
    batchResults := r.batchResults ++ [b],
    recordsProcessed := r.recordsProcessed + b.recordsProcessed,
    recordsFailed := r.recordsFailed + b.recordsFailed,
    batchesCompleted := r.batchesCompleted + (if b.status = .completed then 1 else 0),
    batchesFailed := r.batchesFailed + (if b.status = .failed then 1 else 0) }

/-- The final-status derivation of `execute_migration` (the `if` chain
under "# Determine final status"). -/
def deriveStatus (recordsFailed recordsProcessed : Nat) : MigrationStatus :=
  if recordsFailed = 0 then .completed
  else if recordsProcessed > 0 then .partialSuccess
  else .failed

/-- Effects of one `execute_migration` call: the count query's outcome,
whether `_create_backup_table` raises, whether the commit after the backup
raises, each batch's effects (keyed by batch number), and whether the
post-run `_log_migration`/`session.commit()` step raises. -/
structure ExecEnv where
  countResult : Except String Nat
  backupFails : Bool := false
  backupCommitFails : Bool := false
  batchEnv : Nat → BatchEnv := fun _ => {}
  logCommitFails : Bool := false

/-- Configuration of one `execute_migration` call (constructor defaults of
`MigrationExecutor` plus the `execute_migration` keyword arguments). -/
structure ExecCfg where
  batchSize : Nat := 1000
  maxWorkers : Nat := 4
  enableRollback : Bool := true
  dryRun : Bool := false
  parallel : Bool := true

/-- The `try` block of `execute_migration`.  `order` is the completion
order in which the thread pool of `_process_batches_parallel` delivers
batch results; the sequential path ignores it and uses generation order.
An exception inside the block carries the partially-updated result object
(Python mutates `result` in place), to be finished by the outer handler. -/
def executeMigrationTry (env : ExecEnv) (cfg : ExecCfg) (order : List BatchParams) :
    Except (String × MigrationResult) MigrationResult :=
  let r0 : MigrationResult := { status := .running }
  match env.countResult with
  | .error e => .error (e, r0)
  | .ok total =>
    let r1 := { r0 with totalRecords := total }
    if total = 0 then .ok { r1 with status := .completed }
    else if cfg.enableRollback && !cfg.dryRun && env.backupFails then
      .error ("backup failed", r1)
    else if env.backupCommitFails then .error ("commit failed", r1)
    else
      let batches := generateBatches cfg.batchSize total
      let todo := if cfg.parallel && cfg.maxWorkers > 1 then order else batches
      let r2 := todo.foldl
        (fun acc p => addBatchResult acc (processBatch (env.batchEnv p.batchNum) cfg.dryRun p))
        r1
      let r3 := { r2 with status := deriveStatus r2.recordsFailed r2.recordsProcessed }
      if !cfg.dryRun && env.logCommitFails then .error ("log commit failed", r3)
      else .ok r3

/-- `MigrationExecutor.execute_migration`: the outer `except Exception`
turns any exception from the `try` block into a returned result with
status `FAILED` and the exception's message. -/
def executeMigration (env : ExecEnv) (cfg : ExecCfg) (order : List BatchParams) :
    MigrationResult :=
  match executeMigrationTry env cfg order with
  | .ok r => r
  | .error (e, r) => { r with status := .failed, errorMessage := some e }

/-- Whether a modelled call returned normally (no escaping exception). -/
def returnsNormally {ε α : Type} : Except ε α → Bool
  | .ok _ => true
  | .error _ => false

/-! ## Sample inputs used by closed counterexamples and witnesses -/

/-- A column definition inferred for an integer-valued column. -/
def samplePtsInfo : ColInfo :=
  { type := "integer", nullable := false, maxLength := 0, sqlType := "INTEGER" }

/-- An `add` change as the detector emits it. -/
def sampleAddChange : SchemaChange :=
  { operation := "add", tableName := "player_stats", columnName := "pts",
    newDefinition := some samplePtsInfo,
    reason := "Found in scraped data but not in existing schema" }

/-- A `remove` change. -/
def sampleRemoveChange : SchemaChange :=
  { operation := "remove", tableName := "player_stats", columnName := "obsolete" }

/-- A change with an operation outside `add`/`modify`/`remove`. -/
def sampleRenameChange : SchemaChange :=
  { operation := "rename", tableName := "player_stats", columnName := "pts" }

/-- An environment whose DDL always succeeds and whose commits succeed. -/
def benignApplyEnv : ApplyEnv := { ddlOk := fun _ => true }

/-- An environment where only the final `session.commit()` raises. -/
def commitFailApplyEnv : ApplyEnv := { ddlOk := fun _ => true, commitFails := true }

/-- An environment where only `_record_schema_changes` raises internally. -/
def archiveFailApplyEnv : ApplyEnv := { ddlOk := fun _ => true, archiveFails := true }

end StatBucket

namespace StatBucket

/-! ## The per-change loop of apply_schema_changes, characterised -/

/-- The classification loop, run from an arbitrary accumulator, appends to
each bucket exactly the changes selected by that bucket's predicate. -/
theorem classifyFold_spec (ddlOk : SchemaChange → Bool) (changes : List SchemaChange)
    (acc : ApplyResults) :
    changes.foldl (classifyStep ddlOk) acc =
      { applied := acc.applied ++ changes.filter
          (fun ch => (ch.operation == "add" || ch.operation == "modify") && ddlOk ch),
        failed := acc.failed ++ changes.filter
          (fun ch => (ch.operation == "add" || ch.operation == "modify") && !ddlOk ch),
        skipped := acc.skipped ++ changes.filter
          (fun ch => !(ch.operation == "add") && !(ch.operation == "modify")) } := by
  induction changes generalizing acc with
  | nil => simp
  | cons ch rest ih =>
    simp only [List.foldl_cons, List.filter_cons]
    rw [ih]
    by_cases hA : ch.operation = "add"
    · by_cases hOk : ddlOk ch <;>
        simp [classifyStep, hA, hOk]
    · by_cases hM : ch.operation = "modify"
      · by_cases hOk : ddlOk ch <;>
          simp [classifyStep, hA, hM, hOk]
      · by_cases hR : ch.operation = "remove" <;>
          simp [classifyStep, hA, hM, hR]

/-- Bucket contents of `classifyChanges` itself. -/
theorem classifyChanges_spec (ddlOk : SchemaChange → Bool) (changes : List SchemaChange) :
    classifyChanges ddlOk changes =
      { applied := changes.filter
          (fun ch => (ch.operation == "add" || ch.operation == "modify") && ddlOk ch),
        failed := changes.filter
          (fun ch => (ch.operation == "add" || ch.operation == "modify") && !ddlOk ch),
        skipped := changes.filter
          (fun ch => !(ch.operation == "add") && !(ch.operation == "modify")) } := by
  unfold classifyChanges
  rw [classifyFold_spec]
  rfl

/-- A normal return of `applySchemaChanges` carries the loop's buckets and
the committed session. -/
theorem applySchemaChanges_ok (env : ApplyEnv) (changes : List SchemaChange)
    (res : ApplyResults) (s : ApplySession)
    (hok : applySchemaChanges env changes = .ok (res, s)) :
    res = classifyChanges env.ddlOk changes ∧
    s = sessionCommit (recordSchemaChanges env.archiveFails
          (classifyChanges env.ddlOk changes).applied {}) ∧
    env.commitFails = false := by
  unfold applySchemaChanges at hok
  by_cases hc : env.commitFails
  · simp [hc] at hok
  · simp [hc] at hok
    exact ⟨hok.1.symm, hok.2.symm, by simp [hc]⟩

/-- C2: for every list of changes given to
`SchemaMigrationManager.apply_schema_changes`, a change whose operation is
`remove` is never in the returned `applied` bucket and always lands in
`skipped`, regardless of the environment (DDL success, archival, commit
behaviour). -/
theorem remove_never_applied (env : ApplyEnv) (changes : List SchemaChange)
    (res : ApplyResults) (s : ApplySession) (ch : SchemaChange)
    (hok : applySchemaChanges env changes = .ok (res, s))
    (hmem : ch ∈ changes) (hop : ch.operation = "remove") :
    ch ∈ res.skipped ∧ ch ∉ res.applied := by
  obtain ⟨hres, -, -⟩ := applySchemaChanges_ok env changes res s hok
  rw [hres, classifyChanges_spec]
  constructor
  · simp only [List.mem_filter]
    exact ⟨hmem, by simp [hop]⟩
  · intro hin
    simp only [List.mem_filter, hop] at hin
    simp at hin

/-- Witness for C2 at a concrete remove change. -/
theorem remove_never_applied_witness :
    sampleRemoveChange ∈
        (({ applied := [], failed := [], skipped := [sampleRemoveChange] }) : ApplyResults).skipped ∧
    sampleRemoveChange ∉
        (({ applied := [], failed := [], skipped := [sampleRemoveChange] }) : ApplyResults).applied :=
  remove_never_applied benignApplyEnv [sampleRemoveChange] _ _ sampleRemoveChange
    rfl (by simp) rfl

/-- C10: a change whose operation is none of `add`, `modify`, `remove` is
routed to `skipped` by `apply_schema_changes` — it is neither applied nor
classified as failed. -/
theorem unknown_operation_skipped (env : ApplyEnv) (changes : List SchemaChange)
    (res : ApplyResults) (s : ApplySession) (ch : SchemaChange)
    (hok : applySchemaChanges env changes = .ok (res, s))
    (hmem : ch ∈ changes) (hA : ch.operation ≠ "add") (hM : ch.operation ≠ "modify")
    (_hR : ch.operation ≠ "remove") :
    ch ∈ res.skipped ∧ ch ∉ res.applied ∧ ch ∉ res.failed := by
  obtain ⟨hres, -, -⟩ := applySchemaChanges_ok env changes res s hok
  rw [hres, classifyChanges_spec]
  refine ⟨?_, ?_, ?_⟩
  · simp only [List.mem_filter]
    exact ⟨hmem, by simp [hA, hM]⟩
  · intro hin
    simp only [List.mem_filter] at hin
    rcases hin with ⟨-, hcond⟩
    simp [hA, hM] at hcond
  · intro hin
    simp only [List.mem_filter] at hin
    rcases hin with ⟨-, hcond⟩
    simp [hA, hM] at hcond

/-- Witness for C10 at a concrete `rename` change. -/
theorem unknown_operation_skipped_witness :
    sampleRenameChange ∈
        (({ applied := [], failed := [], skipped := [sampleRenameChange] }) : ApplyResults).skipped ∧
    sampleRenameChange ∉
        (({ applied := [], failed := [], skipped := [sampleRenameChange] }) : ApplyResults).applied ∧
    sampleRenameChange ∉
        (({ applied := [], failed := [], skipped := [sampleRenameChange] }) : ApplyResults).failed :=
  unknown_operation_skipped benignApplyEnv [sampleRenameChange] _ _ sampleRenameChange
    rfl (by simp) (by decide) (by decide) (by decide)

/-- C1 counterexample: when the final `session.commit()` raises,
`apply_schema_changes` re-raises instead of returning a result dict, and
the exception propagates through `process_scraped_data` (auto-migrate on,
pause off) as well — so these entry points do let an exception escape. -/
theorem commit_failure_escapes_apply_and_process :
    applySchemaChanges commitFailApplyEnv [sampleAddChange]
        = .error "Schema migration failed" ∧
    processScrapedData commitFailApplyEnv true false "player_stats" []
        [("pts", samplePtsInfo)] = .error "Schema migration failed" := by
  constructor <;> rfl

/-- C1 (amended): `execute_migration` indeed always returns a structured
result (its catch-all turns every modelled failure into a terminal
status), and `apply_schema_changes` contains per-change DDL failures and
archival failures — it returns normally exactly when the final commit
succeeds; a commit failure escapes it, and escapes
`process_scraped_data` in turn. -/
theorem entry_point_exception_containment_amended :
    (∀ (env : ApplyEnv) (changes : List SchemaChange),
      returnsNormally (applySchemaChanges env changes) = !env.commitFails) ∧
    (∀ (env : ExecEnv) (cfg : ExecCfg) (order : List BatchParams),
      (executeMigration env cfg order).status = .completed ∨
      (executeMigration env cfg order).status = .partialSuccess ∨
      (executeMigration env cfg order).status = .failed) ∧
    (∀ (env : ApplyEnv) (autoMigrate pauseOnChanges : Bool) (tableName : String)
      (existingColumns requiredColumns : List (String × ColInfo)),
      env.commitFails = false →
      returnsNormally (processScrapedData env autoMigrate pauseOnChanges tableName
        existingColumns requiredColumns) = true) := by
  refine ⟨?_, ?_, ?_⟩
  · intro env changes
    unfold applySchemaChanges
    by_cases hc : env.commitFails <;> simp [hc, returnsNormally]
  · intro env cfg order
    have hder : ∀ f p : Nat, deriveStatus f p = .completed ∨
        deriveStatus f p = .partialSuccess ∨ deriveStatus f p = .failed := by
      intro f p
      unfold deriveStatus
      split
      · exact Or.inl rfl
      · split
        · exact Or.inr (Or.inl rfl)
        · exact Or.inr (Or.inr rfl)
    unfold executeMigration
    cases htry : executeMigrationTry env cfg order with
    | error er => simp
    | ok r =>
      simp only
      unfold executeMigrationTry at htry
      cases hcount : env.countResult with
      | error e =>
        rw [hcount] at htry
        exact absurd htry (by simp)
      | ok total =>
        rw [hcount] at htry
        simp only at htry
        split at htry
        · simp only [Except.ok.injEq] at htry
          rw [← htry]
          exact Or.inl rfl
        · split at htry
          · exact absurd htry (by simp)
          · split at htry
            · exact absurd htry (by simp)
            · split at htry
              · exact absurd htry (by simp)
              · simp only [Except.ok.injEq] at htry
                rw [← htry]
                exact hder _ _
  · intro env autoMigrate pauseOnChanges tableName existingColumns requiredColumns hc
    unfold processScrapedData
    by_cases he : (detectChangesFromScrapedData tableName existingColumns
        requiredColumns).isEmpty
    · simp [he, returnsNormally]
    · simp only [he, if_false]
      by_cases ha : autoMigrate && handleSchemaChanges pauseOnChanges
          (detectChangesFromScrapedData tableName existingColumns requiredColumns)
      · simp only [ha, if_true]
        unfold applySchemaChanges
        simp [hc, returnsNormally]
      · simp [ha, returnsNormally]

/-- C5 counterexample: when `_record_schema_changes` raises, the failure
is swallowed — `apply_schema_changes` still returns normally with the
change in `applied`, commits, and leaves no audit row at all. The claim
said the whole apply call must fail. -/
theorem archival_failure_swallowed_not_fatal :
    applySchemaChanges archiveFailApplyEnv [sampleAddChange]
      = .ok ({ applied := [sampleAddChange], failed := [], skipped := [] },
             { pending := [], committed := [] }) := by
  rfl

/-- C5 (amended): when archival succeeds, every `applied` change has its
audit row committed in the same transaction as the DDL (the committed
audit rows are exactly the applied changes' rows); when archival raises,
the failure is logged and swallowed — the call still commits and returns,
leaving no audit rows. -/
theorem applied_archival_amended (env : ApplyEnv) (changes : List SchemaChange)
    (res : ApplyResults) (s : ApplySession)
    (hok : applySchemaChanges env changes = .ok (res, s)) :
    (env.archiveFails = false → s.committed = res.applied.map toSchemaChangeRow) ∧
    (env.archiveFails = true → s.committed = []) := by
  obtain ⟨hres, hs, -⟩ := applySchemaChanges_ok env changes res s hok
  constructor
  · intro ha
    rw [hs, hres]
    simp [recordSchemaChanges, sessionCommit, ha]
  · intro ha
    rw [hs]
    simp [recordSchemaChanges, sessionCommit, ha]

/-- Witness for C5 at a concrete applied change with archival succeeding. -/
theorem applied_archival_amended_witness :
    ((false = false →
        ({ pending := [], committed := [toSchemaChangeRow sampleAddChange] } :
            ApplySession).committed =
          ({ applied := [sampleAddChange], failed := [], skipped := [] } :
              ApplyResults).applied.map toSchemaChangeRow) ∧
     (false = true →
        ({ pending := [], committed := [toSchemaChangeRow sampleAddChange] } :
            ApplySession).committed = [])) :=
  applied_archival_amended benignApplyEnv [sampleAddChange] _ _ rfl

/-! ## MigrationExecutor: final status derivation -/

/-- Case behaviour of the final-status `if` chain. -/
theorem deriveStatus_spec (f p : Nat) :
    (f = 0 → deriveStatus f p = .completed) ∧
    (0 < p → 0 < f → deriveStatus f p = .partialSuccess) ∧
    (p = 0 → 0 < f → deriveStatus f p = .failed) := by
  refine ⟨?_, ?_, ?_⟩
  · intro hf
    simp [deriveStatus, hf]
  · intro hp hf
    have hf0 : ¬ f = 0 := by omega
    simp [deriveStatus, hf0, hp]
  · intro hp hf
    have hf0 : ¬ f = 0 := by omega
    simp [deriveStatus, hf0, hp]

/-- Environment for a run over one record whose single batch fails at the
fetch step, so no row is ever attempted. -/
def fetchFailExecEnv : ExecEnv :=
  { countResult := .ok 1, batchEnv := fun _ => { fetchFails := true } }

/-- A sequential, otherwise-default configuration. -/
def sequentialCfg : ExecCfg := { parallel := false }

/-- C3 counterexample: `totalRecords = 1 > 0`, the only batch fails
wholesale, so zero records are processed — yet the final status is
`completed` (the chain tests `records_failed == 0` first), not `failed`
as the claim's zero-processed clause requires. -/
theorem all_batches_failed_yet_completed :
    (executeMigration fetchFailExecEnv sequentialCfg []).totalRecords = 1 ∧
    (executeMigration fetchFailExecEnv sequentialCfg []).recordsProcessed = 0 ∧
    (executeMigration fetchFailExecEnv sequentialCfg []).batchesFailed = 1 ∧
    (executeMigration fetchFailExecEnv sequentialCfg []).status = .completed :=
  ⟨rfl, rfl, rfl, rfl⟩

/-- C3 (amended): when the `try` block of `execute_migration` finishes
without a fatal error, the final status is exactly
`deriveStatus recordsFailed recordsProcessed`: zero failed records gives
`completed` — even when zero records were processed because batches
failed wholesale —, some processed and some failed gives `partial`, and
zero processed with some failed gives `failed`.  A fatal pre-batch error
(failing count query) yields `failed`, and any other fatal error (backup,
commits, post-run log) overrides the derived status with `failed`. -/
theorem final_status_derivation_amended :
    (∀ (env : ExecEnv) (cfg : ExecCfg) (order : List BatchParams) (r : MigrationResult),
      executeMigrationTry env cfg order = .ok r →
      executeMigration env cfg order = r ∧
      r.status = deriveStatus r.recordsFailed r.recordsProcessed ∧
      (r.recordsFailed = 0 → r.status = .completed) ∧
      (0 < r.recordsProcessed → 0 < r.recordsFailed → r.status = .partialSuccess) ∧
      (r.recordsProcessed = 0 → 0 < r.recordsFailed → r.status = .failed)) ∧
    (∀ (env : ExecEnv) (cfg : ExecCfg) (order : List BatchParams) (e : String),
      env.countResult = .error e → (executeMigration env cfg order).status = .failed) ∧
    (∀ (env : ExecEnv) (cfg : ExecCfg) (order : List BatchParams) (er : String)
      (pr : MigrationResult),
      executeMigrationTry env cfg order = .error (er, pr) →
      (executeMigration env cfg order).status = .failed) := by
  refine ⟨?_, ?_, ?_⟩
  · intro env cfg order r htry
    have hexec : executeMigration env cfg order = r := by
      unfold executeMigration
      rw [htry]
    refine ⟨hexec, ?_⟩
    have hst : r.status = deriveStatus r.recordsFailed r.recordsProcessed := by
      unfold executeMigrationTry at htry
      cases hcount : env.countResult with
      | error e =>
        rw [hcount] at htry
        exact absurd htry (by simp)
      | ok total =>
        rw [hcount] at htry
        simp only at htry
        split at htry
        · simp only [Except.ok.injEq] at htry
          rw [← htry]
          rfl
        · split at htry
          · exact absurd htry (by simp)
          · split at htry
            · exact absurd htry (by simp)
            · split at htry
              · exact absurd htry (by simp)
              · simp only [Except.ok.injEq] at htry
                rw [← htry]
    obtain ⟨h1, h2, h3⟩ := deriveStatus_spec r.recordsFailed r.recordsProcessed
    exact ⟨hst,
      fun hf => hst.trans (h1 hf),
      fun hp hf => hst.trans (h2 hp hf),
      fun hp hf => hst.trans (h3 hp hf)⟩
  · intro env cfg order e hcount
    unfold executeMigration executeMigrationTry
    rw [hcount]
  · intro env cfg order er pr htry
    unfold executeMigration
    rw [htry]

/-! ## MigrationExecutor: batch partitioning -/

/-- Membership in the generated batch list. -/
theorem mem_generateBatches (batchSize totalRecords : Nat) (b : BatchParams) :
    b ∈ generateBatches batchSize totalRecords ↔
      ∃ i, i < (totalRecords + batchSize - 1) / batchSize ∧
        b = { batchNum := i, offset := i * batchSize, limit := batchSize,
              totalBatches := (totalRecords + batchSize - 1) / batchSize } := by
  simp only [generateBatches, List.mem_map, List.mem_range]
  constructor
  · rintro ⟨i, hi, rfl⟩
    exact ⟨i, hi, rfl⟩
  · rintro ⟨i, hi, rfl⟩
    exact ⟨i, hi, rfl⟩

/-- Batch-count arithmetic: with a positive total, the ceiling division
written `(total + size - 1) / size` is `(total - 1) / size + 1`. -/
theorem ceilDiv_eq (batchSize totalRecords : Nat) (hb : 0 < batchSize)
    (ht : 0 < totalRecords) :
    (totalRecords + batchSize - 1) / batchSize = (totalRecords - 1) / batchSize + 1 := by
  have h1 : totalRecords + batchSize - 1 = (totalRecords - 1) + batchSize := by omega
  rw [h1, Nat.add_div_right _ hb]

/-- C6: with positive `totalRecords` and `batchSize`, `_generate_batches`
produces exactly `ceil(totalRecords / batchSize)` batches, every batch has
`LIMIT batchSize` and offset `batchNum * batchSize` starting inside
`[0, totalRecords)`, and every record index below `totalRecords` falls in
the offset range of exactly one batch — no gaps, no overlaps. -/
theorem generate_batches_partition (batchSize totalRecords : Nat)
    (hb : 0 < batchSize) (ht : 0 < totalRecords) :
    (generateBatches batchSize totalRecords).length
        = (totalRecords + batchSize - 1) / batchSize ∧
    (∀ b ∈ generateBatches batchSize totalRecords,
        b.limit = batchSize ∧ b.offset = b.batchNum * batchSize ∧
        b.offset < totalRecords) ∧
    (∀ n, n < totalRecords →
        ∃! b, b ∈ generateBatches batchSize totalRecords ∧
          b.offset ≤ n ∧ n < b.offset + b.limit) := by
  have hnum := ceilDiv_eq batchSize totalRecords hb ht
  refine ⟨by simp [generateBatches], ?_, ?_⟩
  · intro b hbmem
    rw [mem_generateBatches] at hbmem
    obtain ⟨i, hi, rfl⟩ := hbmem
    refine ⟨rfl, rfl, ?_⟩
    have hile : i ≤ (totalRecords - 1) / batchSize := by omega
    have h2 : i * batchSize ≤ (totalRecords - 1) / batchSize * batchSize :=
      Nat.mul_le_mul_right batchSize hile
    have h3 : (totalRecords - 1) / batchSize * batchSize ≤ totalRecords - 1 :=
      Nat.div_mul_le_self _ _
    simp only
    omega
  · intro n hn
    refine ⟨{ batchNum := n / batchSize, offset := n / batchSize * batchSize,
              limit := batchSize,
              totalBatches := (totalRecords + batchSize - 1) / batchSize },
            ⟨?_, ?_, ?_⟩, ?_⟩
    · rw [mem_generateBatches]
      refine ⟨n / batchSize, ?_, rfl⟩
      have : n / batchSize ≤ (totalRecords - 1) / batchSize :=
        Nat.div_le_div_right (by omega)
      omega
    · exact Nat.div_mul_le_self n batchSize
    · simp only
      have h1 : batchSize * (n / batchSize) + n % batchSize = n :=
        Nat.div_add_mod n batchSize
      have h2 : n % batchSize < batchSize := Nat.mod_lt n hb
      have h3 : batchSize * (n / batchSize) = n / batchSize * batchSize :=
        Nat.mul_comm _ _
      omega
    · rintro b ⟨hbmem, hlo, hhi⟩
      rw [mem_generateBatches] at hbmem
      obtain ⟨j, hj, rfl⟩ := hbmem
      simp only at hlo hhi
      have hdiv : n / batchSize = j := by
        refine Nat.div_eq_of_lt_le ?_ ?_
        · exact hlo
        · rw [Nat.succ_mul]
          exact hhi
      simp [hdiv]

/-- Witness for C6 at the spec's concrete scenario
(`totalRecords = 2500`, `batchSize = 1000`, three batches). -/
theorem generate_batches_partition_witness :
    (generateBatches 1000 2500).length = (2500 + 1000 - 1) / 1000 ∧
    (∀ b ∈ generateBatches 1000 2500,
        b.limit = 1000 ∧ b.offset = b.batchNum * 1000 ∧ b.offset < 2500) ∧
    (∀ n, n < 2500 →
        ∃! b, b ∈ generateBatches 1000 2500 ∧
          b.offset ≤ n ∧ n < b.offset + b.limit) :=
  generate_batches_partition 1000 2500 (by decide) (by decide)

/-! ## MigrationExecutor: parallel and sequential batch processing -/

/-- Folding batch results into a run result adds up the per-batch counters
(exactly what `add_batch_result` accumulates). -/
theorem foldl_addBatchResult_counters (benv : Nat → BatchEnv) (dryRun : Bool)
    (l : List BatchParams) (r : MigrationResult) :
    ((l.foldl (fun acc p => addBatchResult acc (processBatch (benv p.batchNum) dryRun p)) r).recordsProcessed
        = r.recordsProcessed
          + (l.map (fun p => (processBatch (benv p.batchNum) dryRun p).recordsProcessed)).sum) ∧
    ((l.foldl (fun acc p => addBatchResult acc (processBatch (benv p.batchNum) dryRun p)) r).recordsFailed
        = r.recordsFailed
          + (l.map (fun p => (processBatch (benv p.batchNum) dryRun p).recordsFailed)).sum) := by
  induction l generalizing r with
  | nil => simp
  | cons p rest ih =>
    simp only [List.foldl_cons, List.map_cons, List.sum_cons]
    obtain ⟨ih1, ih2⟩ := ih (addBatchResult r (processBatch (benv p.batchNum) dryRun p))
    constructor
    · rw [ih1]
      simp [addBatchResult, Nat.add_assoc]
    · rw [ih2]
      simp [addBatchResult, Nat.add_assoc]

/-- C7: for a fixed environment (fixed record set, transform outcomes and
I/O behaviour), `execute_migration` with `parallel=True` — whose thread
pool delivers the generated batches in an arbitrary completion order — and
with `parallel=False` produce the same `recordsProcessed`, the same
`recordsFailed`, and the same final status. -/
theorem parallel_sequential_equivalence (env : ExecEnv) (cfg : ExecCfg)
    (order : List BatchParams) (total : Nat)
    (hcount : env.countResult = .ok total)
    (hperm : order.Perm (generateBatches cfg.batchSize total)) :
    ((executeMigration env { cfg with parallel := true } order).recordsProcessed
        = (executeMigration env { cfg with parallel := false } order).recordsProcessed) ∧
    ((executeMigration env { cfg with parallel := true } order).recordsFailed
        = (executeMigration env { cfg with parallel := false } order).recordsFailed) ∧
    ((executeMigration env { cfg with parallel := true } order).status
        = (executeMigration env { cfg with parallel := false } order).status) := by
  obtain ⟨bs, mw, erb, dr, par⟩ := cfg
  dsimp only at hperm ⊢
  unfold executeMigration executeMigrationTry
  rw [hcount]
  dsimp only
  by_cases h0 : total = 0
  · simp [h0]
  · by_cases hbk : (erb && !dr && env.backupFails) = true
    · simp [h0, hbk]
    · by_cases hbc : env.backupCommitFails = true
      · simp [h0, hbk, hbc]
      · by_cases hw : mw > 1
        · have hwd : decide (mw > 1) = true := decide_eq_true hw
          obtain ⟨ho1, ho2⟩ := foldl_addBatchResult_counters env.batchEnv dr order
            { status := MigrationStatus.running, totalRecords := total }
          obtain ⟨hs1, hs2⟩ := foldl_addBatchResult_counters env.batchEnv dr
            (generateBatches bs total)
            { status := MigrationStatus.running, totalRecords := total }
          have hsump :
              (order.map (fun p => (processBatch (env.batchEnv p.batchNum) dr p).recordsProcessed)).sum
                = ((generateBatches bs total).map
                    (fun p => (processBatch (env.batchEnv p.batchNum) dr p).recordsProcessed)).sum :=
            (hperm.map _).sum_eq
          have hsumf :
              (order.map (fun p => (processBatch (env.batchEnv p.batchNum) dr p).recordsFailed)).sum
                = ((generateBatches bs total).map
                    (fun p => (processBatch (env.batchEnv p.batchNum) dr p).recordsFailed)).sum :=
            (hperm.map _).sum_eq
          have hp : (order.foldl
              (fun acc p => addBatchResult acc (processBatch (env.batchEnv p.batchNum) dr p))
              { status := MigrationStatus.running, totalRecords := total }).recordsProcessed
              = ((generateBatches bs total).foldl
              (fun acc p => addBatchResult acc (processBatch (env.batchEnv p.batchNum) dr p))
              { status := MigrationStatus.running, totalRecords := total }).recordsProcessed := by
            rw [ho1, hs1, hsump]
          have hf : (order.foldl
              (fun acc p => addBatchResult acc (processBatch (env.batchEnv p.batchNum) dr p))
              { status := MigrationStatus.running, totalRecords := total }).recordsFailed
              = ((generateBatches bs total).foldl
              (fun acc p => addBatchResult acc (processBatch (env.batchEnv p.batchNum) dr p))
              { status := MigrationStatus.running, totalRecords := total }).recordsFailed := by
            rw [ho2, hs2, hsumf]
          by_cases hlog : (!dr && env.logCommitFails) = true
          · simp [h0, hbk, hbc, hwd, hlog, hp, hf]
          · simp [h0, hbk, hbc, hwd, hlog, hp, hf]
        · have hwd : decide (mw > 1) = false := decide_eq_false hw
          simp [hwd]

/-- Witness batch 0 of a 3-record run with batch size 2. -/
def witnessBatchA : BatchParams :=
  { batchNum := 0, offset := 0, limit := 2, totalBatches := 2 }

/-- Witness batch 1 of the same run. -/
def witnessBatchB : BatchParams :=
  { batchNum := 1, offset := 2, limit := 2, totalBatches := 2 }

/-- Witness environment: 3 records, batch 0 has one failing row. -/
def witnessExecEnv : ExecEnv :=
  { countResult := .ok 3,
    batchEnv := fun i =>
      if i = 0 then { rowOutcomes := [true, false] } else { rowOutcomes := [true] } }

/-- Witness configuration: batch size 2, defaults otherwise. -/
def witnessExecCfg : ExecCfg := { batchSize := 2 }

/-- Witness for C7: a concrete 2-batch run whose parallel completion order
reverses the generation order. -/
theorem parallel_sequential_equivalence_witness :
    ((executeMigration witnessExecEnv { witnessExecCfg with parallel := true }
          [witnessBatchB, witnessBatchA]).recordsProcessed
        = (executeMigration witnessExecEnv { witnessExecCfg with parallel := false }
          [witnessBatchB, witnessBatchA]).recordsProcessed) ∧
    ((executeMigration witnessExecEnv { witnessExecCfg with parallel := true }
          [witnessBatchB, witnessBatchA]).recordsFailed
        = (executeMigration witnessExecEnv { witnessExecCfg with parallel := false }
          [witnessBatchB, witnessBatchA]).recordsFailed) ∧
    ((executeMigration witnessExecEnv { witnessExecCfg with parallel := true }
          [witnessBatchB, witnessBatchA]).status
        = (executeMigration witnessExecEnv { witnessExecCfg with parallel := false }
          [witnessBatchB, witnessBatchA]).status) :=
  parallel_sequential_equivalence witnessExecEnv witnessExecCfg
    [witnessBatchB, witnessBatchA] 3 rfl (List.Perm.swap witnessBatchA witnessBatchB [])

/-! ## SchemaChangeDetector: modify emission against the upgrade table -/

/-- A successful lookup returns a pair of the list. -/
theorem lookup_mem_pairs {l : List (String × ColInfo)} {k : String} {v : ColInfo}
    (h : l.lookup k = some v) : (k, v) ∈ l := by
  induction l with
  | nil => simp [List.lookup] at h
  | cons p rest ih =>
    rcases p with ⟨k', v'⟩
    simp only [List.lookup] at h
    split at h
    · rename_i hbeq
      obtain rfl : v' = v := by injection h
      obtain rfl : k = k' := eq_of_beq hbeq
      exact List.mem_cons_self _ _
    · exact List.mem_cons_of_mem _ (ih h)

/-- With duplicate-free keys (a Python dict), any pair of the list keyed
`k` carries the value `lookup` returns for `k`. -/
theorem lookup_nodup_unique {l : List (String × ColInfo)} {k : String} {v w : ColInfo}
    (hnd : (l.map Prod.fst).Nodup) (hl : l.lookup k = some v) (hm : (k, w) ∈ l) :
    w = v := by
  induction l with
  | nil => simp at hm
  | cons p rest ih =>
    rcases p with ⟨k', v'⟩
    simp only [List.map_cons, List.nodup_cons] at hnd
    rcases List.mem_cons.mp hm with hhead | htail
    · rw [Prod.ext_iff] at hhead
      obtain ⟨h1, h2⟩ := hhead
      subst h1
      subst h2
      simp only [List.lookup] at hl
      split at hl
      · injection hl
      · rename_i hbeq
        simp at hbeq
    · have hk : (k == k') = false := by
        rw [beq_eq_false_iff_ne]
        rintro rfl
        exact hnd.1 (List.mem_map.mpr ⟨(k, w), htail, rfl⟩)
      simp only [List.lookup] at hl
      split at hl
      · rename_i hbeq
        rw [hk] at hbeq
        cases hbeq
      · exact ih hnd.2 hl htail

/-- The spec's strict upgrade table, as ordered (live, required) pairs of
uppercased type names: integer→{float,text}, varchar→{text}, float→{text},
date→{timestamp,text}, boolean→{text}. -/
def specUpgradeTable : List (String × String) :=
  [("INTEGER", "FLOAT"), ("INTEGER", "TEXT"), ("VARCHAR", "TEXT"), ("FLOAT", "TEXT"),
   ("DATE", "TIMESTAMP"), ("DATE", "TEXT"), ("BOOLEAN", "TEXT")]

/-- C4: for a column present in both the live schema and the inferred
requirements, `detect_changes_from_scraped_data` emits a `modify` change
for it exactly when `_should_upgrade_column_type` approves, which holds
exactly when the (live, required) pair is in the spec's strict upgrade
table; and no type is ever an upgrade of itself (no no-op diff, no
downgrade). -/
theorem modify_iff_strict_upgrade :
    (∀ (tableName : String) (existingColumns requiredColumns : List (String × ColInfo))
        (col : String) (existingInfo requiredInfo : ColInfo),
      (requiredColumns.map Prod.fst).Nodup →
      existingColumns.lookup col = some existingInfo →
      requiredColumns.lookup col = some requiredInfo →
      ((∃ ch ∈ detectChangesFromScrapedData tableName existingColumns requiredColumns,
          ch.operation = "modify" ∧ ch.columnName = col)
        ↔ shouldUpgradeColumnType existingInfo.type requiredInfo.type = true)) ∧
    (∀ existingType requiredType : String,
      shouldUpgradeColumnType existingType requiredType = true ↔
        (existingType.toUpper, requiredType.toUpper) ∈ specUpgradeTable) ∧
    (∀ t : String, shouldUpgradeColumnType t t = false) := by
  have h2 : ∀ existingType requiredType : String,
      shouldUpgradeColumnType existingType requiredType = true ↔
        (existingType.toUpper, requiredType.toUpper) ∈ specUpgradeTable := by
    intro e r
    unfold shouldUpgradeColumnType specUpgradeTable
    by_cases he1 : e.toUpper = "INTEGER"
    · simp [he1]
    · by_cases he2 : e.toUpper = "VARCHAR"
      · simp [he1, he2]
      · by_cases he3 : e.toUpper = "FLOAT"
        · simp [he1, he2, he3]
        · by_cases he4 : e.toUpper = "DATE"
          · simp [he1, he2, he3, he4]
          · by_cases he5 : e.toUpper = "BOOLEAN"
            · simp [he1, he2, he3, he4, he5]
            · simp [he1, he2, he3, he4, he5]
  refine ⟨?_, h2, ?_⟩
  · intro tbl existing required col ei ri hnd hle hlr
    constructor
    · rintro ⟨ch, hchmem, hop, hcol⟩
      unfold detectChangesFromScrapedData at hchmem
      simp only [List.mem_append, List.mem_filterMap] at hchmem
      rcases hchmem with ⟨⟨pk, pv⟩, hp, hdef⟩ | ⟨⟨pk, pv⟩, hp, hdef⟩
      · simp only at hdef
        split at hdef
        · injection hdef with hch
          subst hch
          simp at hop
        · exact absurd hdef (by simp)
      · simp only at hdef
        split at hdef
        · rename_i e' heq
          split at hdef
          · rename_i hcond
            injection hdef with hch
            subst hch
            simp only at hcol
            subst hcol
            rw [hle] at heq
            obtain rfl : e' = ei := by
              injection heq with hv
              exact hv.symm
            have hpv : pv = ri := lookup_nodup_unique hnd hlr hp
            rw [← hpv]
            exact hcond
          · exact absurd hdef (by simp)
        · exact absurd hdef (by simp)
    · intro hup
      refine ⟨{ operation := "modify", tableName := tbl, columnName := col,
                oldDefinition := some ei, newDefinition := some ri,
                reason := "Type upgrade needed" }, ?_, rfl, rfl⟩
      unfold detectChangesFromScrapedData
      refine List.mem_append_right _ ?_
      simp only [List.mem_filterMap]
      refine ⟨(col, ri), lookup_mem_pairs hlr, ?_⟩
      rw [hle]
      simp [hup]
  · intro t
    rcases hb : shouldUpgradeColumnType t t with _ | _
    · rfl
    · exfalso
      have := (h2 t t).mp hb
      simp only [specUpgradeTable, List.mem_cons, List.not_mem_nil, or_false,
        Prod.mk.injEq] at this
      rcases this with ⟨ha, hbb⟩ | ⟨ha, hbb⟩ | ⟨ha, hbb⟩ | ⟨ha, hbb⟩ |
        ⟨ha, hbb⟩ | ⟨ha, hbb⟩ | ⟨ha, hbb⟩ <;>
        · rw [ha] at hbb
          exact absurd hbb (by decide)

/-! ## TypeInferenceEngine: date heuristics -/

/-- C9 counterexample: `_looks_like_date` also accepts slash-separated
dates — the string value `12/25/2023` is classified as a `date` although
it does not match the `YYYY-MM-DD` shape, so `YYYY-MM-DD` is not the only
recognized date format. -/
theorem slash_date_recognized_counterexample :
    inferColumnType (.pyStr "12/25/2023") = "date" ∧
    matchDateISO "12/25/2023" = false := by
  constructor <;> rfl

/-- C9 (amended): a string value is classified `date` exactly when it has
one of the three shapes `YYYY-MM-DD`, `MM/DD/YYYY` or `M/D/YYYY` (the two
slash shapes are recognized as well); `datetime` exactly when it is not
one of the date shapes and starts with `YYYY-MM-DD HH:MM:SS` or
`YYYY-MM-DDTHH:MM:SS`; and `string` in every other case. -/
theorem date_classification_amended (s : String) :
    (inferColumnType (.pyStr s) = "date"
        ↔ (matchDateISO s || matchDateSlash s || matchDateSlashFlex s) = true) ∧
    (inferColumnType (.pyStr s) = "datetime"
        ↔ looksLikeDate s = false ∧ (matchDatetimeSpace s || matchDatetimeT s) = true) ∧
    (inferColumnType (.pyStr s) = "string"
        ↔ looksLikeDate s = false ∧ looksLikeDatetime s = false) := by
  unfold inferColumnType
  by_cases hd : looksLikeDate s = true
  · have hd' : (matchDateISO s || matchDateSlash s || matchDateSlashFlex s) = true := hd
    simp [hd, hd']
  · have hd0 : looksLikeDate s = false := by
      rcases hb : looksLikeDate s with _ | _
      · rfl
      · exact absurd hb hd
    have hd' : (matchDateISO s || matchDateSlash s || matchDateSlashFlex s) = false := hd0
    by_cases hdt : looksLikeDatetime s = true
    · have hdt' : (matchDatetimeSpace s || matchDatetimeT s) = true := hdt
      simp [hd0, hd', hdt, hdt']
    · have hdt0 : looksLikeDatetime s = false := by
        rcases hb : looksLikeDatetime s with _ | _
        · rfl
        · exact absurd hb hdt
      have hdt' : (matchDatetimeSpace s || matchDatetimeT s) = false := hdt0
      simp [hd0, hd', hdt0, hdt']

/-! ## TypeInferenceEngine: widening across samples -/

/-- The six type names the inference engine can produce. -/
def validTypeName (t : String) : Prop :=
  t = "boolean" ∨ t = "integer" ∨ t = "float" ∨ t = "date" ∨ t = "datetime" ∨ t = "string"

instance (t : String) : Decidable (validTypeName t) := by
  unfold validTypeName
  infer_instance

/-- Every inferred per-value type is one of the six names. -/
theorem inferColumnType_valid (v : PyValue) : validTypeName (inferColumnType v) := by
  cases v with
  | pyStr s =>
    simp only [inferColumnType]
    split
    · simp [validTypeName]
    · split <;> simp [validTypeName]
  | pyBool b => simp [inferColumnType, validTypeName]
  | pyInt n => simp [inferColumnType, validTypeName]
  | pyFloat q => simp [inferColumnType, validTypeName]
  | pyNone => simp [inferColumnType, validTypeName]
  | pyOther => simp [inferColumnType, validTypeName]

/-- On the six type names the rank function is injective. -/
theorem typeHierarchy_inj {a b : String} (ha : validTypeName a) (hb : validTypeName b)
    (h : typeHierarchy a = typeHierarchy b) : a = b := by
  rcases ha with rfl | rfl | rfl | rfl | rfl | rfl <;>
    rcases hb with rfl | rfl | rfl | rfl | rfl | rfl <;>
    first
      | rfl
      | exact absurd h (by decide)

/-- One widening step from an already-typed column on valid names: the
result is one of the two arguments and ranks at least as high as both. -/
theorem widenType_some (c t : String) (hc : validTypeName c) (ht : validTypeName t) :
    ∃ w, widenType (some c) t = some w ∧ validTypeName w ∧ (w = c ∨ w = t) ∧
      typeHierarchy c ≤ typeHierarchy w ∧ typeHierarchy t ≤ typeHierarchy w := by
  rcases hc with rfl | rfl | rfl | rfl | rfl | rfl <;>
    rcases ht with rfl | rfl | rfl | rfl | rfl | rfl <;>
    exact ⟨_, rfl, by decide, by decide, by decide, by decide⟩

/-- Folding further non-null samples into an already-typed column keeps a
valid type that ranks at least as high as the start and as every folded
sample, and is the start or one of the samples. -/
theorem analyze_fold_char (l : List PyValue) (hl : ∀ v ∈ l, v ≠ PyValue.pyNone)
    (c : String) (hc : validTypeName c) :
    ∃ m, l.foldl analyzeUpdate (some c) = some m ∧ validTypeName m ∧
      (m = c ∨ ∃ v ∈ l, inferColumnType v = m) ∧
      typeHierarchy c ≤ typeHierarchy m ∧
      (∀ v ∈ l, typeHierarchy (inferColumnType v) ≤ typeHierarchy m) := by
  induction l generalizing c with
  | nil => exact ⟨c, rfl, hc, Or.inl rfl, Nat.le_refl _, by simp⟩
  | cons v rest ih =>
    have hv : v ≠ PyValue.pyNone := hl v (List.mem_cons_self _ _)
    have hstep : analyzeUpdate (some c) v = widenType (some c) (inferColumnType v) := by
      cases v <;> first | rfl | exact absurd rfl hv
    obtain ⟨w, hw, hwval, hwor, hwc, hwt⟩ :=
      widenType_some c (inferColumnType v) hc (inferColumnType_valid v)
    have hrest : ∀ u ∈ rest, u ≠ PyValue.pyNone :=
      fun u hu => hl u (List.mem_cons_of_mem _ hu)
    obtain ⟨m, hm, hmval, hmor, hmw, hmub⟩ := ih hrest w hwval
    refine ⟨m, ?_, hmval, ?_, ?_, ?_⟩
    · rw [List.foldl_cons, hstep, hw]
      exact hm
    · rcases hmor with rfl | ⟨u, hu, hum⟩
      · rcases hwor with rfl | rfl
        · exact Or.inl rfl
        · exact Or.inr ⟨v, List.mem_cons_self _ _, rfl⟩
      · exact Or.inr ⟨u, List.mem_cons_of_mem _ hu, hum⟩
    · exact Nat.le_trans hwc hmw
    · intro u hu
      rcases List.mem_cons.mp hu with rfl | hu'
      · exact Nat.le_trans hwt hmw
      · exact hmub u hu'

/-- Characterisation of the inferred column type over non-null samples:
empty input gives no type, otherwise the result is an inferred type of one
of the samples and ranks at least as high as every sample's type — it is
the most permissive type seen. -/
theorem analyzeColumnType_char (l : List PyValue) (hl : ∀ v ∈ l, v ≠ PyValue.pyNone) :
    (l = [] ∧ analyzeColumnType l = none) ∨
    ∃ m, analyzeColumnType l = some m ∧ validTypeName m ∧
      (∃ v ∈ l, inferColumnType v = m) ∧
      (∀ v ∈ l, typeHierarchy (inferColumnType v) ≤ typeHierarchy m) := by
  cases l with
  | nil => exact Or.inl ⟨rfl, rfl⟩
  | cons v rest =>
    refine Or.inr ?_
    have hv : v ≠ PyValue.pyNone := hl v (List.mem_cons_self _ _)
    have hstep : analyzeUpdate none v = some (inferColumnType v) := by
      cases v <;> first | rfl | exact absurd rfl hv
    have hrest : ∀ u ∈ rest, u ≠ PyValue.pyNone :=
      fun u hu => hl u (List.mem_cons_of_mem _ hu)
    obtain ⟨m, hm, hmval, hmor, hmc, hmub⟩ :=
      analyze_fold_char rest hrest (inferColumnType v) (inferColumnType_valid v)
    refine ⟨m, ?_, hmval, ?_, ?_⟩
    · rw [analyzeColumnType, List.foldl_cons, hstep]
      exact hm
    · rcases hmor with rfl | ⟨u, hu, hum⟩
      · exact ⟨v, List.mem_cons_self _ _, rfl⟩
      · exact ⟨u, List.mem_cons_of_mem _ hu, hum⟩
    · intro u hu
      rcases List.mem_cons.mp hu with rfl | hu'
      · exact hmc
      · exact hmub u hu'

/-- C8: the total order ranks `boolean < integer < float < date <
datetime < string`; `_get_most_permissive_type` is commutative and
associative on the six type names; and inferring a column's type over any
permutation of the same non-null sample values yields the same type,
which is the inferred type of one of the samples and ranks at least as
high as every sample's — the maximum under the order. -/
theorem type_widening_permutation_invariant (l l' : List PyValue)
    (hperm : l.Perm l') (hnn : ∀ v ∈ l, v ≠ PyValue.pyNone) :
    (typeHierarchy "boolean" < typeHierarchy "integer" ∧
     typeHierarchy "integer" < typeHierarchy "float" ∧
     typeHierarchy "float" < typeHierarchy "date" ∧
     typeHierarchy "date" < typeHierarchy "datetime" ∧
     typeHierarchy "datetime" < typeHierarchy "string") ∧
    (∀ a b, validTypeName a → validTypeName b →
      getMostPermissiveType a b = getMostPermissiveType b a) ∧
    (∀ a b c, validTypeName a → validTypeName b → validTypeName c →
      getMostPermissiveType (getMostPermissiveType a b) c
        = getMostPermissiveType a (getMostPermissiveType b c)) ∧
    analyzeColumnType l = analyzeColumnType l' ∧
    (∀ m, analyzeColumnType l = some m →
      (∃ v ∈ l, inferColumnType v = m) ∧
      (∀ v ∈ l, typeHierarchy (inferColumnType v) ≤ typeHierarchy m)) := by
  refine ⟨by decide, ?_, ?_, ?_, ?_⟩
  · intro a b ha hb
    rcases ha with rfl | rfl | rfl | rfl | rfl | rfl <;>
      rcases hb with rfl | rfl | rfl | rfl | rfl | rfl <;> rfl
  · intro a b c ha hb hc
    rcases ha with rfl | rfl | rfl | rfl | rfl | rfl <;>
      rcases hb with rfl | rfl | rfl | rfl | rfl | rfl <;>
      rcases hc with rfl | rfl | rfl | rfl | rfl | rfl <;> rfl
  · have hnn' : ∀ v ∈ l', v ≠ PyValue.pyNone :=
      fun v hv => hnn v (hperm.mem_iff.mpr hv)
    rcases analyzeColumnType_char l hnn with ⟨rfl, h0⟩ | ⟨m, hm, hmval, hmatt, hmub⟩
    · have hl' : l' = [] := hperm.symm.eq_nil
      subst hl'
      rfl
    · rcases analyzeColumnType_char l' hnn' with ⟨hl'nil, h0'⟩ |
        ⟨m', hm', hmval', hmatt', hmub'⟩
      · subst hl'nil
        have : l = [] := hperm.eq_nil
        subst this
        simp [analyzeColumnType] at hm
      · have h1 : typeHierarchy m ≤ typeHierarchy m' := by
          obtain ⟨v, hv, hvm⟩ := hmatt
          rw [← hvm]
          exact hmub' v (hperm.mem_iff.mp hv)
        have h2 : typeHierarchy m' ≤ typeHierarchy m := by
          obtain ⟨v, hv, hvm⟩ := hmatt'
          rw [← hvm]
          exact hmub v (hperm.mem_iff.mpr hv)
        have : m = m' := typeHierarchy_inj hmval hmval' (Nat.le_antisymm h1 h2)
        rw [hm, hm', this]
  · intro m hm
    rcases analyzeColumnType_char l hnn with ⟨rfl, h0⟩ | ⟨m0, hm0, _, hmatt, hmub⟩
    · rw [h0] at hm
      cases hm
    · rw [hm0] at hm
      injection hm with hmm
      subst hmm
      exact ⟨hmatt, hmub⟩

/-- Witness for C8 at a concrete two-sample column seen in two orders. -/
theorem type_widening_permutation_invariant_witness :
    ((typeHierarchy "boolean" < typeHierarchy "integer" ∧
      typeHierarchy "integer" < typeHierarchy "float" ∧
      typeHierarchy "float" < typeHierarchy "date" ∧
      typeHierarchy "date" < typeHierarchy "datetime" ∧
      typeHierarchy "datetime" < typeHierarchy "string") ∧
     (∀ a b, validTypeName a → validTypeName b →
       getMostPermissiveType a b = getMostPermissiveType b a) ∧
     (∀ a b c, validTypeName a → validTypeName b → validTypeName c →
       getMostPermissiveType (getMostPermissiveType a b) c
         = getMostPermissiveType a (getMostPermissiveType b c)) ∧
     analyzeColumnType [PyValue.pyInt 2, PyValue.pyStr "LAL"]
        = analyzeColumnType [PyValue.pyStr "LAL", PyValue.pyInt 2] ∧
     (∀ m, analyzeColumnType [PyValue.pyInt 2, PyValue.pyStr "LAL"] = some m →
       (∃ v ∈ [PyValue.pyInt 2, PyValue.pyStr "LAL"], inferColumnType v = m) ∧
       (∀ v ∈ [PyValue.pyInt 2, PyValue.pyStr "LAL"],
         typeHierarchy (inferColumnType v) ≤ typeHierarchy m))) :=
  type_widening_permutation_invariant
    [PyValue.pyInt 2, PyValue.pyStr "LAL"] [PyValue.pyStr "LAL", PyValue.pyInt 2]
    (List.Perm.swap (PyValue.pyStr "LAL") (PyValue.pyInt 2) [])
    (by decide)

end StatBucket
